import Mathlib

/-!
Verification of `rust-dotnet-bindgen` against its specification.

The development shallowly embeds the two source files of the repository:

* `crates/macro-support/src/lib.rs` — signature extraction from a native
  function declaration into a `BindgenFunction`, building a `Program` of
  `Export`s, with `Diagnostic` errors carrying a source span;
* `crates/dotnet-bindgen-cli/src/ast.rs` — the C# AST model and its
  text renderer (`FfiType`, `Root`, `BlockComment`, `UsingStatement`,
  `Namespace`, `Class`, `ImportedMethod`).

Rust's `&mut dyn io::Write` sink is modelled as an explicit `String`
accumulator threaded through each render function (a fault-free writer:
every `write!` appends and succeeds); the one genuine failure point, the
`unreachable!()` default arm in `FfiType::render`, is modelled as `none`.
Fallible extraction code returns `Except Diagnostic _`.
-/

namespace Bindgen

/-- Modelled from the spec (§6): a source location span. The real code uses
`proc_macro2::Span`; only its identity matters to the claims, so it is an
abstract tag. -/
abbrev Span := Nat

/-- Modelled from the spec (§6): `Diagnostic{ message, location }` from
`crates/macro-support/src/error.rs`, which is not part of the provided
sources. `Diagnostic::spanned_error(node, msg)` / `bail_span!` / `err_span!`
build one from the offending node's span and a message. -/
structure Diagnostic where
  message : String
  span : Span
deriving Repr, DecidableEq

/-- Modelled from the spec (§3): `FfiType` from `dotnet-bindgen-core`
(not part of the provided sources): `Int { width: u8, signed: bool }`
or `Void`.  Per spec §7/§9 the source constructor performs no width
validation (the renderer in `ast.rs` treats widths outside
{8,16,32,64} as an `unreachable!()` panic and its own TODO comment
records that the branch is in fact reachable), so `width` is an
unconstrained numeric field here. -/
inductive FfiType where
  | Int (width : Nat) (signed : Bool)
  | Void
deriving Repr, DecidableEq

/-- Modelled from the spec (§3): `MethodArgument { ffi_type, name }` from
`dotnet-bindgen-core`. `MaybeOwnedString` is collapsed to `String`
(spec §9: the borrow/own duality carries no semantic content). -/
structure MethodArgument where
  ffi_type : FfiType
  name : String
deriving Repr, DecidableEq

/-- Modelled from the spec (§3): `BindgenFunction { name, args, return_type }`
from `dotnet-bindgen-core`; `MaybeOwnedArr` collapsed to `List`. -/
structure BindgenFunction where
  name : String
  args : List MethodArgument
  return_type : FfiType
deriving Repr, DecidableEq

/-- `enum Export` (macro-support/src/lib.rs): today only the `Func` variant. -/
inductive Export where
  | func (f : BindgenFunction)
deriving Repr, DecidableEq

/-- `struct Program { exports: Vec<Export> }` (macro-support/src/lib.rs). -/
structure Program where
  exports : List Export
deriving Repr, DecidableEq

/-! ### Embedding of the `syn` input shapes used by extraction

Only the structure that `macro-support/src/lib.rs` inspects is modelled:
patterns (`syn::Pat`), types (`syn::Type`), function arguments
(`syn::FnArg`), function items (`syn::ItemFn`) and items (`syn::Item`).
Every node carries the `Span` used for diagnostics. -/

/-- A `syn::Pat`.  `ident` is `Pat::Ident` with its `by_ref` token span,
optional sub-pattern and identifier (the fields of `syn::PatIdent`,
flattened); `other` stands for every other pattern kind, which
`parse_pat` rejects wholesale via its `_` arm. -/
inductive SynPat where
  | ident (span : Span) (by_ref : Option Span) (subpat : Option SynPat) (identName : String)
  | other (span : Span)
deriving Repr

/-- The span of a pattern node. -/
def SynPat.span : SynPat → Span
  | .ident s _ _ _ => s
  | .other s => s

/-- A `syn::Type`: a source type spelling plus its span.  `parse_type`
matches on the type with a single `_` arm, so no finer structure is
observable. -/
structure SynType where
  span : Span
  spelling : String
deriving Repr, DecidableEq

/-- A `syn::FnArg`: a receiver (`self`-style) parameter, or a typed
parameter `pat: ty` (`syn::PatType`). -/
inductive FnArg where
  | receiver (span : Span)
  | typed (pat : SynPat) (ty : SynType)
deriving Repr

/-- A `syn::ItemFn`, restricted to the fields read by `macro_parse`:
`sig.ident`, `sig.inputs`, `sig.output` (`none` = default return). -/
structure ItemFn where
  ident : String
  inputs : List FnArg
  output : Option SynType
deriving Repr

/-- A `syn::Item`: a function item or anything else (rejected with
"Can't generate binding metadata for this"). -/
inductive SynItem where
  | fn (f : ItemFn)
  | other (span : Span)
deriving Repr

/-! ### Extraction (macro-support/src/lib.rs) -/

/-- `parse_type` (lib.rs:121-132): the match on the type has a single `_`
arm, so every type spelling fails with
`err_span!(ty, "Can't generate binding metadata for this type")`. -/
def parse_type (ty : SynType) : Except Diagnostic FfiType :=
  Except.error { message := "Can't generate binding metadata for this type", span := ty.span }

/-- `parse_pat_ident` (lib.rs:107-119): reject a `ref` binding, then a
sub-pattern binding, else yield the identifier. -/
def parse_pat_ident (_span : Span) (by_ref : Option Span) (subpat : Option SynPat)
    (identName : String) : Except Diagnostic String :=
  match by_ref with
  | some r => Except.error { message := "Can't generate binding metadata for ref types", span := r }
  | none =>
    match subpat with
    | some pat => Except.error { message := "Can't generate binding metadata for subpatterns", span := pat.span }
    | none => Except.ok identName

/-- `parse_pat` (lib.rs:100-105): only plain identifier patterns are
accepted. -/
def parse_pat : SynPat → Except Diagnostic String
  | .ident s br sp n => parse_pat_ident s br sp n
  | .other s => Except.error { message := "Can't generate binding metadata for this pattern", span := s }

/-- The argument loop of `MacroParse for syn::ItemFn` (lib.rs:68-79):
each input in order is either a rejected receiver or a typed parameter
whose pattern and type are parsed; the first failure aborts. -/
def parseArgs : List FnArg → Except Diagnostic (List MethodArgument)
  | [] => Except.ok []
  | arg :: rest => do
    let ma ← match arg with
      | .receiver r => Except.error { message := "Can't generate binding metadata for methods", span := r }
      | .typed pat ty => do
        let name ← parse_pat pat
        let ffi_type ← parse_type ty
        Except.ok { ffi_type := ffi_type, name := name : MethodArgument }
    let more ← parseArgs rest
    Except.ok (ma :: more)

/-- `impl MacroParse for syn::ItemFn` (lib.rs:64-98).  The Rust code takes
`&mut Program`; state passing makes that explicit: the returned `Program`
is the caller's program after the call.  The `Export::Func` push happens
only after every argument and the return type have parsed, so on any error
the program comes back unchanged. -/
def macroParse (f : ItemFn) (p : Program) : Except Diagnostic Unit × Program :=
  match (do
    let args ← parseArgs f.inputs
    let return_type ← match f.output with
      | none => Except.ok FfiType.Void
      | some ty => parse_type ty
    Except.ok { name := f.ident, args := args, return_type := return_type : BindgenFunction }) with
  | .error d => (.error d, p)
  | .ok func => (.ok (), { p with exports := p.exports ++ [Export.func func] })

/-- `impl MacroParse for syn::Item` (lib.rs:52-62): only `Item::Fn` is
accepted. -/
def macroParseItem : SynItem → Program → Except Diagnostic Unit × Program
  | .fn f, p => macroParse f p
  | .other s, p => (.error { message := "Can't generate binding metadata for this", span := s }, p)

/-- A `proc_macro2::TokenStream`, abstractly: a sequence of opaque tokens. -/
abbrev TokenStream := List Nat

/-- `impl ToTokens for Export` (lib.rs:15-19): the body is empty; nothing
is appended to the stream. -/
def exportToTokens (_e : Export) (tokens : TokenStream) : TokenStream :=
  tokens

/-- `impl ToTokens for Program` (lib.rs:25-31): append each export's tokens
in order. -/
def programToTokens (p : Program) (tokens : TokenStream) : TokenStream :=
  p.exports.foldl (fun ts e => exportToTokens e ts) tokens

/-- `expand` (lib.rs:37-50).  `syn::parse2` and `ItemFn`'s own `ToTokens`
are external `syn`/`quote` behaviour, so they are parameters: `parse2`
parses the input stream, `itemToTokens` appends an item's tokens to a
stream.  The body mirrors the source: parse, `macro_parse` into a fresh
program, then emit the item's tokens followed by the program's tokens. -/
def expand (parse2 : TokenStream → Except Diagnostic SynItem)
    (itemToTokens : SynItem → TokenStream → TokenStream)
    (_attrs tokens : TokenStream) : Except Diagnostic TokenStream := do
  let program : Program := { exports := [] }
  let item ← parse2 tokens
  match macroParseItem item program with
  | (.error d, _) => Except.error d
  | (.ok _, program) =>
    let out : TokenStream := []
    let out := itemToTokens item out
    let out := programToTokens program out
    Except.ok out

/-! ### Rendering (dotnet-bindgen-cli/src/ast.rs)

The writer is modelled as a `String` accumulator: each `write!` appends.
Functions that can hit the `unreachable!()` arm of `FfiType::render`
return `Option String` (`none` = panic); the others are total. -/

/-- `static INDENT_TOK` (ast.rs:7). -/
def INDENT_TOK : String := "    "

/-- `struct RenderContext { indent_level: u8 }` (ast.rs:34-37). -/
structure RenderContext where
  indent_level : Nat
deriving Repr, DecidableEq

/-- `RenderContext::indented` (ast.rs:40-45): depth + 1, parent untouched. -/
def RenderContext.indented (ctx : RenderContext) : RenderContext :=
  { indent_level := ctx.indent_level + 1 }

/-- `render_indent` (ast.rs:9-15): the indent token once per depth level. -/
def indentStr (ctx : RenderContext) : String :=
  String.join (List.replicate ctx.indent_level INDENT_TOK)

/-- The `render_ln!` macro (ast.rs:17-32): indent, formatted text, newline. -/
def renderLnStr (ctx : RenderContext) (s : String) : String :=
  indentStr ctx ++ s ++ "\n"

/-- Modelled from the spec (§1): the case-conversion black box
`toTypeCase` (the external `heck` crate's `to_camel_case`, i.e.
PascalCase): split the identifier on underscores, capitalize each
word's first letter, lowercase the rest, concatenate. -/
def splitOnUnderscore : List Char → List (List Char)
  | [] => [[]]
  | c :: cs =>
    let rest := splitOnUnderscore cs
    if c = '_' then [] :: rest
    else
      match rest with
      | w :: ws => (c :: w) :: ws
      | [] => [[c]]

/-- Capitalize the first letter of a word, lowercase the rest. -/
def capitalizeWord : List Char → List Char
  | [] => []
  | c :: cs => c.toUpper :: cs.map Char.toLower

/-- Modelled from the spec (§1): `heck::CamelCase::to_camel_case`
(PascalCase) on an ASCII snake-case identifier. -/
def toCamelCase (s : String) : String :=
  String.mk (((splitOnUnderscore s.data).filter (fun w => w ≠ [])).map capitalizeWord).flatten

/-- Modelled from the spec (§1): `heck::MixedCase::to_mixed_case`
(camelCase): first word all lowercase, later words capitalized. -/
def toMixedCase (s : String) : String :=
  match (splitOnUnderscore s.data).filter (fun w => w ≠ []) with
  | [] => ""
  | w :: ws => String.mk (w.map Char.toLower ++ (ws.map capitalizeWord).flatten)

/-- `impl AstNode for FfiType` (ast.rs:52-77): `Int{8,signed}` renders
`SByte`/`Byte`; widths 16, 32, 64 render `Int`/`UInt` followed by the
width; any other width hits `unreachable!()` (modelled as `none`);
`Void` renders `void`.  The context is unused by the source. -/
def renderFfiTypeW (t : FfiType) (buf : String) : Option String :=
  match t with
  | .Int width signed =>
    match width with
    | 8 => some (buf ++ (if signed then "SByte" else "Byte"))
    | 16 | 32 | 64 => some (buf ++ (if signed then "Int" else "UInt") ++ toString width)
    | _ => none
  | .Void => some (buf ++ "void")

/-- `struct BlockComment { text: Vec<String> }` (ast.rs:121-123). -/
structure BlockComment where
  text : List String
deriving Repr, DecidableEq

/-- The line loop of `BlockComment::render` (ast.rs:128-130). -/
def renderTextLinesW : List String → RenderContext → String → String
  | [], _, buf => buf
  | l :: ls, ctx, buf => renderTextLinesW ls ctx (buf ++ renderLnStr ctx (" * " ++ l))

/-- `impl AstNode for BlockComment` (ast.rs:125-135): `/*` line, one
` * ` prefixed line per text line, ` */` line.  Only writes, so total. -/
def renderBlockCommentW (c : BlockComment) (ctx : RenderContext) (buf : String) : String :=
  renderTextLinesW c.text ctx (buf ++ renderLnStr ctx "/*") ++ renderLnStr ctx " */"

/-- `struct UsingStatement { path: String }` (ast.rs:137-139). -/
structure UsingStatement where
  path : String
deriving Repr, DecidableEq

/-- `impl AstNode for UsingStatement` (ast.rs:141-145). -/
def renderUsingW (u : UsingStatement) (ctx : RenderContext) (buf : String) : String :=
  buf ++ renderLnStr ctx ("using " ++ u.path ++ ";")

/-- `struct ImportedMethod` (ast.rs:167-170). -/
structure ImportedMethod where
  binary_name : String
  func_data : BindgenFunction
deriving Repr, DecidableEq

/-- `ImportedMethod::csharp_name` (ast.rs:172-176): the function name
converted to PascalCase. -/
def ImportedMethod.csharp_name (m : ImportedMethod) : String :=
  toCamelCase m.func_data.name

/-- The argument loop of `ImportedMethod::render` (ast.rs:195-204):
`", "` before every argument but the first, then the argument's type
and its camelCased name. -/
def renderArgsW : List MethodArgument → Bool → String → Option String
  | [], _, buf => some buf
  | arg :: rest, first, buf =>
    let buf := if !first then buf ++ ", " else buf
    match renderFfiTypeW arg.ffi_type buf with
    | none => none
    | some buf => renderArgsW rest false (buf ++ " " ++ toMixedCase arg.name)

/-- `impl AstNode for ImportedMethod` (ast.rs:178-210): the `[DllImport]`
annotation line with the raw (un-cased) library and entry-point strings,
then an indented `public static extern <ret> <PascalName>(<args>);` line. -/
def renderMethodW (m : ImportedMethod) (ctx : RenderContext) (buf : String) : Option String :=
  let buf := buf ++ renderLnStr ctx
    ("[DllImport(\"" ++ m.binary_name ++ "\", EntryPoint = \"" ++ m.func_data.name ++ "\")]")
  let buf := buf ++ indentStr ctx
  let buf := buf ++ "public static extern "
  match renderFfiTypeW m.func_data.return_type buf with
  | none => none
  | some buf =>
    let buf := buf ++ " " ++ m.csharp_name ++ "("
    match renderArgsW m.func_data.args true buf with
    | none => none
    | some buf => some (buf ++ ");\n")

/-- The method loop of `Class::render` (ast.rs:224-226): each method at
one more indent level. -/
def renderMethodsW : List ImportedMethod → RenderContext → String → Option String
  | [], _, buf => some buf
  | m :: ms, ctx, buf =>
    match renderMethodW m ctx buf with
    | none => none
    | some buf => renderMethodsW ms ctx buf

/-- The closed set of `dyn AstNode` implementors that can appear as a
child node (ast.rs): `FfiType`, `BlockComment`, `UsingStatement`,
`Namespace` (ast.rs:147-150), `Class` (ast.rs:212-216), `ImportedMethod`. -/
inductive Node where
  | ffiType (t : FfiType)
  | blockComment (c : BlockComment)
  | usingStatement (u : UsingStatement)
  | namespaceNode (name : String) (children : List Node)
  | classNode (name : String) (methods : List ImportedMethod) (is_static : Bool)

mutual

/-- Dispatch of `AstNode::render` over the node kinds; `Namespace::render`
(ast.rs:152-165) and `Class::render` (ast.rs:218-232) emit a header line,
a `\x7b` line, their children at `ctx.indented()`, and a `\x7d` line. -/
def renderNodeW : Node → RenderContext → String → Option String
  | .ffiType t, _, buf => renderFfiTypeW t buf
  | .blockComment c, ctx, buf => some (renderBlockCommentW c ctx buf)
  | .usingStatement u, ctx, buf => some (renderUsingW u ctx buf)
  | .namespaceNode name children, ctx, buf =>
    let buf := buf ++ renderLnStr ctx ("namespace " ++ name) ++ renderLnStr ctx "\x7b"
    match renderNodesW children ctx.indented buf with
    | none => none
    | some buf => some (buf ++ renderLnStr ctx "\x7d")
  | .classNode name methods is_static, ctx, buf =>
    let static_part := if is_static then "static " else ""
    let buf := buf ++ renderLnStr ctx ("public " ++ static_part ++ "class " ++ name)
      ++ renderLnStr ctx "\x7b"
    match renderMethodsW methods ctx.indented buf with
    | none => none
    | some buf => some (buf ++ renderLnStr ctx "\x7d")

/-- A loop rendering a list of child nodes in order at a fixed context. -/
def renderNodesW : List Node → RenderContext → String → Option String
  | [], _, buf => some buf
  | c :: cs, ctx, buf =>
    match renderNodeW c ctx buf with
    | none => none
    | some buf => renderNodesW cs ctx buf

end

/-- `struct Root` (ast.rs:79-83). -/
structure Root where
  file_comment : Option BlockComment
  using_statements : List UsingStatement
  children : List Node

/-- The using loop of `Root::render` (ast.rs:103-106). -/
def renderUsingsW : List UsingStatement → RenderContext → String → String
  | [], _, buf => buf
  | u :: us, ctx, buf => renderUsingsW us ctx (renderUsingW u ctx buf)

/-- The child loop of `Root::render` (ast.rs:108-115): a blank line before
every child except when nothing has been emitted yet (`first`). -/
def renderChildrenW : List Node → Bool → RenderContext → String → Option String
  | [], _, _, buf => some buf
  | c :: cs, first, ctx, buf =>
    let buf := if !first then buf ++ "\n" else buf
    match renderNodeW c ctx buf with
    | none => none
    | some buf => renderChildrenW cs false ctx buf

/-- `Root::render` (ast.rs:85-119): optional file comment, a blank line
when a comment was emitted and the using list is non-empty, the using
lines, then the children separated by blank lines (`first` tracks whether
anything at all has been emitted). -/
def renderRootW (r : Root) (buf : String) : Option String :=
  let ctx : RenderContext := { indent_level := 0 }
  let (buf, first) :=
    match r.file_comment with
    | some c => (renderBlockCommentW c ctx buf, false)
    | none => (buf, true)
  let buf := if !first && !r.using_statements.isEmpty then buf ++ "\n" else buf
  let buf := renderUsingsW r.using_statements ctx buf
  let first := first && r.using_statements.isEmpty
  renderChildrenW r.children first ctx buf

/-! ### Derived definitions used by the statements -/

/-- The top-level render context (`RenderContext::default()` in
`Root::render`). -/
def ctx0 : RenderContext := { indent_level := 0 }

/-- The diagnostic on which the argument loop fails for a given first
argument (under the current `parse_type`, every argument fails). -/
def headDiag : FnArg → Diagnostic
  | .receiver r => { message := "Can't generate binding metadata for methods", span := r }
  | .typed pat ty =>
    match parse_pat pat with
    | .error d => d
    | .ok _ => { message := "Can't generate binding metadata for this type", span := ty.span }

/-- Whether an argument is a receiver (`self`-style) parameter. -/
def isReceiverArg : FnArg → Bool
  | .receiver _ => true
  | .typed _ _ => false

/-- Whether an argument binds by reference (`ref` pattern). -/
def isByRefArg : FnArg → Bool
  | .typed (.ident _ (some _) _ _) _ => true
  | _ => false

/-- Whether an argument carries a destructuring sub-pattern (`x @ pat`). -/
def isSubpatArg : FnArg → Bool
  | .typed (.ident _ _ (some _) _) _ => true
  | _ => false

/-- Whether a type spelling is in the supported translation vocabulary,
i.e. whether `parse_type` accepts it. -/
def typeSupported (ty : SynType) : Bool :=
  match parse_type ty with
  | .ok _ => true
  | .error _ => false

/-- Whether an argument's declared type is outside the supported
vocabulary. -/
def isUnsupportedTypeArg : FnArg → Bool
  | .typed _ ty => !typeSupported ty
  | .receiver _ => false

/-- The declaration has a receiver parameter. -/
def hasReceiver (f : ItemFn) : Bool := f.inputs.any isReceiverArg

/-- The declaration has a by-reference binding. -/
def hasByRef (f : ItemFn) : Bool := f.inputs.any isByRefArg

/-- The declaration has a destructuring (sub-pattern) binding. -/
def hasSubpat (f : ItemFn) : Bool := f.inputs.any isSubpatArg

/-- The declaration has a parameter or return type outside the supported
vocabulary. -/
def hasUnsupportedType (f : ItemFn) : Bool :=
  f.inputs.any isUnsupportedTypeArg ||
    (match f.output with
     | some ty => !typeSupported ty
     | none => false)

/-- The extracted argument corresponds to the declared one: the input is a
typed parameter whose pattern yields the argument's name and whose type
translates to the argument's `FfiType`. -/
def argParsedAs (a : FnArg) (m : MethodArgument) : Prop :=
  ∃ pat ty, a = FnArg.typed pat ty ∧ parse_pat pat = .ok m.name ∧ parse_type ty = .ok m.ffi_type

/-- The bytes a node writes into a fresh fault-free writer. -/
def nodeBytes (n : Node) (ctx : RenderContext) : Option String :=
  renderNodeW n ctx ""

/-- The bytes of the top-level child block: each child's own bytes, a
blank line before every child except when it is the first thing emitted
in the file (`first`). -/
def childrenBlockBytes : Bool → List Node → Option String
  | _, [] => some ""
  | first, c :: cs =>
    match nodeBytes c ctx0 with
    | none => none
    | some s =>
      match childrenBlockBytes false cs with
      | none => none
      | some rest => some ((if !first then "\n" else "") ++ s ++ rest)

/-- The bytes of the optional file comment. -/
def commentStr : Option BlockComment → String
  | none => ""
  | some c => renderBlockCommentW c ctx0 ""

/-- The blank line separating the file comment from the import list,
present exactly when a comment was emitted and the import list is
non-empty. -/
def headerSepStr (r : Root) : String :=
  if r.file_comment.isSome && !r.using_statements.isEmpty then "\n" else ""

/-- The import list: each import on its own line, in order. -/
def importsStr : List UsingStatement → String
  | [] => ""
  | u :: us => renderUsingW u ctx0 "" ++ importsStr us

/-- Whether nothing at all precedes the children (no comment, no import):
the first child is then the first emitted element. -/
def rootFirstAfterHeader (r : Root) : Bool :=
  r.file_comment.isNone && r.using_statements.isEmpty

/-- The bytes `Root::render` writes into a fresh writer, decomposed per
the blank-line rules: comment, separator, imports, children block. -/
def rootBytes (r : Root) : Option String :=
  (childrenBlockBytes (rootFirstAfterHeader r) r.children).map
    (fun tail => commentStr r.file_comment ++ headerSepStr r ++ importsStr r.using_statements ++ tail)

/-- A concrete trivial declaration (`fn foo() {}`) used to exercise the
success path of extraction. -/
def fW : ItemFn := { ident := "foo", inputs := [], output := none }

/-- An empty program. -/
def pW : Program := { exports := [] }

/-- The program after a successful extraction of `fW` into `pW`. -/
def pW' : Program :=
  { exports := [Export.func { name := "foo", args := [], return_type := FfiType.Void }] }

/-! ### The type mapper (claims C1, C5) -/

/-- C1: for every constructible `FfiType` value, rendering produces exactly
the enumerated token — `Int{8,true}` gives `SByte`, `Int{8,false}` gives
`Byte`, widths 16/32/64 give `Int<w>`/`UInt<w>` selected by the signed
flag, and `Void` gives `void`; on each of these values the renderer is
total (it returns `some`, never the panic branch) and pure (a function of
the value alone). -/
theorem C1_render_type_tokens :
    renderFfiTypeW (.Int 8 true) "" = some "SByte" ∧
    renderFfiTypeW (.Int 8 false) "" = some "Byte" ∧
    (∀ signed : Bool,
      renderFfiTypeW (.Int 16 signed) "" = some (if signed then "Int16" else "UInt16")) ∧
    (∀ signed : Bool,
      renderFfiTypeW (.Int 32 signed) "" = some (if signed then "Int32" else "UInt32")) ∧
    (∀ signed : Bool,
      renderFfiTypeW (.Int 64 signed) "" = some (if signed then "Int64" else "UInt64")) ∧
    renderFfiTypeW .Void "" = some "void" := by
  refine ⟨rfl, rfl, ?_, ?_, ?_, rfl⟩ <;> intro signed <;> cases signed <;> rfl

/-- C5: the code violates the claim.  `FfiType::Int { width: 7 }` is
constructible (the `dotnet-bindgen-core` constructor performs no width
validation), and rendering it reaches the `unreachable!()` default arm of
`FfiType::render` (ast.rs:69) — a panic, modelled as `none` — rather than
construction having failed with a typed error.  The source's own TODO
comment (ast.rs:68) records that the branch is reachable. -/
theorem C5_width7_renders_to_panic :
    renderFfiTypeW (.Int 7 true) "" = none := rfl

/-! ### Type translation (claim C2) -/

/-- C2 (counterexample): the claim that the type-translation step succeeds
on some type spellings is false — `parse_type` has a single `_` match arm
and fails on every input. -/
theorem C2_no_spelling_is_accepted :
    ¬ ∃ ty : SynType, ∃ t : FfiType, parse_type ty = .ok t := by
  rintro ⟨ty, t, h⟩
  simp [parse_type] at h

/-- C2 (amended): the recognized vocabulary of the type-translation step
is empty in this version: it fails on every type spelling, with a
diagnostic whose message is the fixed unsupported-type text and whose
location is the type's own span. -/
theorem C2_every_spelling_rejected_with_located_diagnostic (ty : SynType) :
    parse_type ty =
      .error { message := "Can't generate binding metadata for this type", span := ty.span } := rfl

/-! ### The imported-method renderer (claim C6) -/

/-- C6: for an `ImportedMethod` wrapping `add(left: Int32, right: Int32) -> Int32`
in library `test_lib`, rendering emits the `[DllImport]` annotation line
naming the library and the un-cased native entry point (`add`), then
`public static extern Int32 Add(Int32 left, Int32 right);` — method name
PascalCased, parameter names camelCased, entry point untouched. -/
theorem C6_add_method_renders_exactly :
    renderMethodW
      { binary_name := "test_lib",
        func_data :=
          { name := "add",
            args := [{ ffi_type := .Int 32 true, name := "left" },
                     { ffi_type := .Int 32 true, name := "right" }],
            return_type := .Int 32 true } }
      ctx0 "" =
      some "[DllImport(\"test_lib\", EntryPoint = \"add\")]\npublic static extern Int32 Add(Int32 left, Int32 right);\n" := by
  rfl

/-! ### Extraction (claims C3, C4, C9) -/

/-- The diagnostic of the first argument always carries a non-empty
message: each of the four rejection messages is a fixed non-empty
literal. -/
theorem headDiag_message_ne (a : FnArg) : (headDiag a).message ≠ "" := by
  cases a with
  | receiver r => simp [headDiag]
  | typed pat ty =>
    cases pat with
    | other s => simp [headDiag, parse_pat]
    | ident s br sp n =>
      cases br with
      | some rr => simp [headDiag, parse_pat, parse_pat_ident]
      | none =>
        cases sp with
        | some sub => simp [headDiag, parse_pat, parse_pat_ident]
        | none => simp [headDiag, parse_pat, parse_pat_ident]

/-- The argument loop fails on its first argument, whatever it is: a
receiver is rejected outright, and a typed argument fails either in
`parse_pat` or (for a plain identifier) in `parse_type`, which accepts
nothing. -/
theorem parseArgs_cons (a : FnArg) (rest : List FnArg) :
    parseArgs (a :: rest) = .error (headDiag a) := by
  cases a with
  | receiver r => rfl
  | typed pat ty =>
    cases pat with
    | other s => rfl
    | ident s br sp n =>
      cases br with
      | some rr => rfl
      | none =>
        cases sp with
        | some sub => rfl
        | none => rfl

/-- `macro_parse` on a declaration with at least one parameter fails with
the first argument's diagnostic and leaves the program unchanged. -/
theorem macroParse_cons (i : String) (a : FnArg) (rest : List FnArg)
    (out : Option SynType) (p : Program) :
    macroParse { ident := i, inputs := a :: rest, output := out } p =
      (.error (headDiag a), p) := by
  unfold macroParse
  rw [show parseArgs ({ ident := i, inputs := a :: rest, output := out } : ItemFn).inputs
        = .error (headDiag a) from parseArgs_cons a rest]
  rfl

/-- `macro_parse` on a parameterless declaration with no return annotation
succeeds, appending exactly one `Export::Func` with no arguments and a
`Void` return type. -/
theorem macroParse_nil_none (i : String) (p : Program) :
    macroParse { ident := i, inputs := [], output := none } p =
      (.ok (), { exports := p.exports ++ [Export.func { name := i, args := [], return_type := FfiType.Void }] }) := rfl

/-- `macro_parse` on a parameterless declaration with a return annotation
fails in `parse_type` on that annotation and leaves the program
unchanged. -/
theorem macroParse_nil_some (i : String) (ty : SynType) (p : Program) :
    macroParse { ident := i, inputs := [], output := some ty } p =
      (.error { message := "Can't generate binding metadata for this type", span := ty.span }, p) := rfl

/-- C3: every declaration containing a receiver parameter, a by-reference
binding, a destructuring binding, or a parameter/return type outside the
supported vocabulary is rejected with a diagnostic whose message is
non-empty (and which, being a `Diagnostic`, carries a source span), and
the program is returned unchanged — no `Export` is appended on any
failure path. -/
theorem unsupported_type_message_ne :
    ("Can't generate binding metadata for this type" : String) ≠ "" := by decide

theorem C3_rejection_fails_and_preserves_program (f : ItemFn) (p : Program)
    (h : hasReceiver f = true ∨ hasByRef f = true ∨ hasSubpat f = true ∨
         hasUnsupportedType f = true) :
    ∃ d : Diagnostic, macroParse f p = (.error d, p) ∧ d.message ≠ "" := by
  obtain ⟨i, inputs, out⟩ := f
  cases inputs with
  | cons a rest => exact ⟨headDiag a, macroParse_cons i a rest out p, headDiag_message_ne a⟩
  | nil =>
    cases out with
    | some ty =>
      exact ⟨{ message := "Can't generate binding metadata for this type", span := ty.span },
        macroParse_nil_some i ty p, unsupported_type_message_ne⟩
    | none =>
      exact absurd h (by simp [hasReceiver, hasByRef, hasSubpat, hasUnsupportedType])

/-- Witness for C3 at a concrete input: a declaration with a receiver
parameter. -/
theorem C3_witness :
    (hasReceiver { ident := "m", inputs := [FnArg.receiver 5], output := none } = true ∨
     hasByRef { ident := "m", inputs := [FnArg.receiver 5], output := none } = true ∨
     hasSubpat { ident := "m", inputs := [FnArg.receiver 5], output := none } = true ∨
     hasUnsupportedType { ident := "m", inputs := [FnArg.receiver 5], output := none } = true) ∧
    ∃ d : Diagnostic,
      macroParse { ident := "m", inputs := [FnArg.receiver 5], output := none } pW =
        (.error d, pW) ∧ d.message ≠ "" :=
  ⟨Or.inl rfl,
   C3_rejection_fails_and_preserves_program
     { ident := "m", inputs := [FnArg.receiver 5], output := none } pW (Or.inl rfl)⟩

/-- A successful argument loop relates declared parameters to extracted
arguments pointwise, in order. -/
theorem parseArgs_ok_forall2 : ∀ {l : List FnArg} {ms : List MethodArgument},
    parseArgs l = .ok ms → List.Forall₂ argParsedAs l ms := by
  intro l
  induction l with
  | nil =>
    intro ms h
    simp [parseArgs] at h
    simp [← h]
  | cons a rest _ih =>
    intro ms h
    rw [parseArgs_cons] at h
    exact absurd h (by simp)

/-- C4: whenever extraction of a declaration succeeds, the produced
`BindgenFunction` has exactly as many arguments as declared parameters,
related pointwise in the declared order; its name is the declaration's
identifier; the return type is `Void` when the annotation is absent and
the type translation of the annotation otherwise; and exactly that
function is appended as an `Export::Func` to the program. -/
theorem C4_success_appends_function (f : ItemFn) (p p' : Program)
    (h : macroParse f p = (.ok (), p')) :
    ∃ func : BindgenFunction,
      p'.exports = p.exports ++ [Export.func func] ∧
      func.name = f.ident ∧
      List.Forall₂ argParsedAs f.inputs func.args ∧
      func.args.length = f.inputs.length ∧
      (f.output = none → func.return_type = FfiType.Void) ∧
      (∀ ty, f.output = some ty → parse_type ty = .ok func.return_type) := by
  obtain ⟨i, inputs, out⟩ := f
  cases inputs with
  | cons a rest =>
    rw [macroParse_cons i a rest out p] at h
    exact absurd h (by simp)
  | nil =>
    cases out with
    | some ty =>
      rw [macroParse_nil_some i ty p] at h
      exact absurd h (by simp)
    | none =>
      rw [macroParse_nil_none i p] at h
      have hp : p' = { exports := p.exports ++ [Export.func { name := i, args := [], return_type := FfiType.Void }] } := by
        have := congrArg Prod.snd h
        simpa using this.symm
      subst hp
      exact ⟨_, rfl, rfl, List.Forall₂.nil, rfl, fun _ => rfl, fun ty hty => by cases hty⟩

/-- Witness for C4 at a concrete input: the trivial declaration `fn foo()`
extracted into the empty program. -/
theorem C4_witness :
    macroParse fW pW = (.ok (), pW') ∧
    ∃ func : BindgenFunction,
      pW'.exports = pW.exports ++ [Export.func func] ∧
      func.name = fW.ident ∧
      List.Forall₂ argParsedAs fW.inputs func.args ∧
      func.args.length = fW.inputs.length ∧
      (fW.output = none → func.return_type = FfiType.Void) ∧
      (∀ ty, fW.output = some ty → parse_type ty = .ok func.return_type) :=
  ⟨rfl, C4_success_appends_function fW pW pW' rfl⟩

/-- C9 (implicit): extraction of a function declaration succeeds exactly
when the parameter list is empty and there is no return annotation
(because the current `parse_type` rejects every type spelling); in that
case the produced function has no arguments and `Void` return type, and
is appended to the program. -/
theorem C9_success_iff_empty_signature (f : ItemFn) (p : Program) :
    ((macroParse f p).1 = .ok () ↔ f.inputs = [] ∧ f.output = none) ∧
    (f.inputs = [] → f.output = none →
      macroParse f p =
        (.ok (), { exports := p.exports ++
          [Export.func { name := f.ident, args := [], return_type := FfiType.Void }] })) := by
  obtain ⟨i, inputs, out⟩ := f
  refine ⟨⟨?_, ?_⟩, ?_⟩
  · intro h
    cases inputs with
    | cons a rest =>
      rw [macroParse_cons i a rest out p] at h
      exact absurd h (by simp)
    | nil =>
      cases out with
      | some ty =>
        rw [macroParse_nil_some i ty p] at h
        exact absurd h (by simp)
      | none => exact ⟨rfl, rfl⟩
  · rintro ⟨h1, h2⟩
    subst h1; subst h2
    rw [macroParse_nil_none i p]
  · intro h1 h2
    subst h1; subst h2
    exact macroParse_nil_none i p

/-- Witness for C9 at a concrete input: the trivial declaration. -/
theorem C9_witness : macroParse fW pW = (.ok (), pW') :=
  (C9_success_iff_empty_signature fW pW).2 rfl rfl

/-! ### Token emission (claim C10) -/

/-- `Program::to_tokens` writes nothing: every `Export::to_tokens` has an
empty body, and the fold over them fixes the stream. -/
theorem programToTokens_id (p : Program) (ts : TokenStream) :
    programToTokens p ts = ts := by
  have hgen : ∀ (l : List Export) (acc : TokenStream),
      l.foldl (fun acc e => exportToTokens e acc) acc = acc := by
    intro l
    induction l with
    | nil => intro acc; rfl
    | cons e l ih =>
      intro acc
      exact ih acc
  exact hgen p.exports ts

/-- C10 (implicit): on every input on which `expand` succeeds, the
returned token stream is exactly the tokens of the parsed input item —
the program's exports contribute nothing, because `Export::to_tokens`
writes nothing. -/
theorem C10_expand_returns_item_tokens_only
    (parse2 : TokenStream → Except Diagnostic SynItem)
    (itemToTokens : SynItem → TokenStream → TokenStream)
    (attrs tokens out : TokenStream)
    (h : expand parse2 itemToTokens attrs tokens = .ok out) :
    ∃ item : SynItem, parse2 tokens = .ok item ∧ out = itemToTokens item [] := by
  unfold expand at h
  cases hp : parse2 tokens with
  | error d =>
    rw [hp] at h
    exact absurd h (by simp [Bind.bind, Except.bind])
  | ok item =>
    refine ⟨item, rfl, ?_⟩
    rw [hp] at h
    simp only [Bind.bind, Except.bind] at h
    rcases hm : macroParseItem item { exports := [] } with ⟨r, prog⟩
    rw [hm] at h
    cases r with
    | error d => exact absurd h (by simp)
    | ok u =>
      cases u
      simp only [programToTokens_id, Except.ok.injEq] at h
      exact h.symm

/-- Witness for C10 at a concrete input: a parser that yields the trivial
function item and an item-to-tokens function appending one token. -/
theorem C10_witness :
    expand (fun _ => (.ok (SynItem.fn fW) : Except Diagnostic SynItem))
        (fun (_ : SynItem) (ts : TokenStream) => ts ++ [7]) [] [] = .ok [7] ∧
    ∃ item : SynItem,
      (fun _ : TokenStream => (Except.ok (SynItem.fn fW) : Except Diagnostic SynItem)) []
          = .ok item ∧
      ([7] : TokenStream) = (fun (_ : SynItem) (ts : TokenStream) => ts ++ [7]) item [] :=
  ⟨rfl, C10_expand_returns_item_tokens_only
    (fun _ => (.ok (SynItem.fn fW) : Except Diagnostic SynItem))
    (fun (_ : SynItem) (ts : TokenStream) => ts ++ [7]) [] [] [7] rfl⟩

/-! ### Renderer structure (claims C7, C8)

The central fact is that every render function only appends: the bytes it
writes do not depend on what is already in the writer.  Each lemma below
states this as `render buf = (render "").map (buf ++ ·)` (or the `String`
analogue for the total renderers). -/

/-- The block-comment line loop only appends. -/
theorem renderTextLinesW_append (ls : List String) (ctx : RenderContext) :
    ∀ buf, renderTextLinesW ls ctx buf = buf ++ renderTextLinesW ls ctx "" := by
  induction ls with
  | nil => intro buf; simp [renderTextLinesW]
  | cons l ls ih =>
    intro buf
    simp only [renderTextLinesW]
    rw [ih (buf ++ renderLnStr ctx (" * " ++ l)), ih ("" ++ renderLnStr ctx (" * " ++ l))]
    simp [String.append_assoc]

/-- `BlockComment::render` only appends. -/
theorem renderBlockCommentW_append (c : BlockComment) (ctx : RenderContext) (buf : String) :
    renderBlockCommentW c ctx buf = buf ++ renderBlockCommentW c ctx "" := by
  unfold renderBlockCommentW
  rw [renderTextLinesW_append c.text ctx (buf ++ renderLnStr ctx "/*"),
    renderTextLinesW_append c.text ctx ("" ++ renderLnStr ctx "/*")]
  simp [String.append_assoc]

/-- The using loop only appends. -/
theorem renderUsingsW_append (us : List UsingStatement) (ctx : RenderContext) :
    ∀ buf, renderUsingsW us ctx buf = buf ++ renderUsingsW us ctx "" := by
  induction us with
  | nil => intro buf; simp [renderUsingsW]
  | cons u us ih =>
    intro buf
    simp only [renderUsingsW, renderUsingW]
    rw [ih (buf ++ renderLnStr ctx ("using " ++ u.path ++ ";")),
      ih ("" ++ renderLnStr ctx ("using " ++ u.path ++ ";"))]
    simp [String.append_assoc]

/-- On a fresh writer, the using loop produces the import-list bytes. -/
theorem renderUsingsW_eq_importsStr (us : List UsingStatement) :
    renderUsingsW us ctx0 "" = importsStr us := by
  induction us with
  | nil => rfl
  | cons u us ih =>
    simp only [renderUsingsW, importsStr]
    rw [renderUsingsW_append us ctx0 (renderUsingW u ctx0 "")]
    rw [ih]

/-- `FfiType::render` only appends. -/
theorem renderFfiTypeW_append (t : FfiType) (buf : String) :
    renderFfiTypeW t buf = (renderFfiTypeW t "").map (buf ++ ·) := by
  cases t with
  | Void => simp [renderFfiTypeW]
  | Int w signed =>
    simp only [renderFfiTypeW]
    split <;> simp [String.append_assoc]

/-- The argument loop of `ImportedMethod::render` only appends. -/
theorem renderArgsW_append : ∀ (args : List MethodArgument) (first : Bool) (buf : String),
    renderArgsW args first buf = (renderArgsW args first "").map (buf ++ ·) := by
  intro args
  induction args with
  | nil => intro first buf; simp [renderArgsW]
  | cons a rest ih =>
    intro first buf
    cases hf : renderFfiTypeW a.ffi_type "" with
    | none =>
      have h' : ∀ b, renderFfiTypeW a.ffi_type b = none := fun b => by
        rw [renderFfiTypeW_append a.ffi_type b, hf]; rfl
      simp [renderArgsW, h']
    | some s =>
      have h' : ∀ b, renderFfiTypeW a.ffi_type b = some (b ++ s) := fun b => by
        rw [renderFfiTypeW_append a.ffi_type b, hf]; rfl
      simp only [renderArgsW, h']
      have key : ∀ X Y : String, X = buf ++ Y →
          renderArgsW rest false X = (renderArgsW rest false Y).map (buf ++ ·) := by
        intro X Y hXY
        rw [hXY, ih false (buf ++ Y), ih false Y]
        cases renderArgsW rest false "" <;> simp [String.append_assoc]
      apply key
      cases first <;> simp [String.append_assoc]

/-- `ImportedMethod::render` only appends. -/
theorem renderMethodW_append (m : ImportedMethod) (ctx : RenderContext) (buf : String) :
    renderMethodW m ctx buf = (renderMethodW m ctx "").map (buf ++ ·) := by
  cases hf : renderFfiTypeW m.func_data.return_type "" with
  | none =>
    have h' : ∀ b, renderFfiTypeW m.func_data.return_type b = none := fun b => by
      rw [renderFfiTypeW_append m.func_data.return_type b, hf]; rfl
    simp [renderMethodW, h']
  | some s =>
    have h' : ∀ b, renderFfiTypeW m.func_data.return_type b = some (b ++ s) := fun b => by
      rw [renderFfiTypeW_append m.func_data.return_type b, hf]; rfl
    cases ha : renderArgsW m.func_data.args true "" with
    | none =>
      have h2 : ∀ b, renderArgsW m.func_data.args true b = none := fun b => by
        rw [renderArgsW_append m.func_data.args true b, ha]; rfl
      simp [renderMethodW, h', h2]
    | some r =>
      have h2 : ∀ b, renderArgsW m.func_data.args true b = some (b ++ r) := fun b => by
        rw [renderArgsW_append m.func_data.args true b, ha]; rfl
      simp [renderMethodW, h', h2, String.append_assoc]

/-- The method loop of `Class::render` only appends. -/
theorem renderMethodsW_append : ∀ (ms : List ImportedMethod) (ctx : RenderContext) (buf : String),
    renderMethodsW ms ctx buf = (renderMethodsW ms ctx "").map (buf ++ ·) := by
  intro ms ctx
  induction ms with
  | nil => intro buf; simp [renderMethodsW]
  | cons m ms ih =>
    intro buf
    cases hm : renderMethodW m ctx "" with
    | none =>
      have h' : ∀ b, renderMethodW m ctx b = none := fun b => by
        rw [renderMethodW_append m ctx b, hm]; rfl
      simp [renderMethodsW, h']
    | some s =>
      have h' : ∀ b, renderMethodW m ctx b = some (b ++ s) := fun b => by
        rw [renderMethodW_append m ctx b, hm]; rfl
      simp only [renderMethodsW, h']
      rw [ih (buf ++ s), ih ("" ++ s)]
      cases renderMethodsW ms ctx "" <;> simp [String.append_assoc]

mutual

/-- Every AST node's render only appends: the bytes written do not depend
on the writer's prior contents. -/
theorem renderNodeW_append : ∀ (n : Node) (ctx : RenderContext) (buf : String),
    renderNodeW n ctx buf = (renderNodeW n ctx "").map (buf ++ ·)
  | .ffiType t, _ctx, buf => by
    simp only [renderNodeW]
    exact renderFfiTypeW_append t buf
  | .blockComment c, ctx, buf => by
    simp only [renderNodeW, Option.map_some']
    rw [renderBlockCommentW_append c ctx buf]
  | .usingStatement u, ctx, buf => by
    simp [renderNodeW, renderUsingW, String.append_assoc]
  | .namespaceNode name children, ctx, buf => by
    cases hn : renderNodesW children ctx.indented "" with
    | none =>
      have h' : ∀ b, renderNodesW children ctx.indented b = none := fun b => by
        rw [renderNodesW_append children ctx.indented b, hn]; rfl
      simp [renderNodeW, h']
    | some body =>
      have h' : ∀ b, renderNodesW children ctx.indented b = some (b ++ body) := fun b => by
        rw [renderNodesW_append children ctx.indented b, hn]; rfl
      simp [renderNodeW, h', String.append_assoc]
  | .classNode name methods is_static, ctx, buf => by
    cases hm : renderMethodsW methods ctx.indented "" with
    | none =>
      have h' : ∀ b, renderMethodsW methods ctx.indented b = none := fun b => by
        rw [renderMethodsW_append methods ctx.indented b, hm]; rfl
      simp [renderNodeW, h']
    | some body =>
      have h' : ∀ b, renderMethodsW methods ctx.indented b = some (b ++ body) := fun b => by
        rw [renderMethodsW_append methods ctx.indented b, hm]; rfl
      simp [renderNodeW, h', String.append_assoc]

/-- A list of child nodes renders by appending only. -/
theorem renderNodesW_append : ∀ (l : List Node) (ctx : RenderContext) (buf : String),
    renderNodesW l ctx buf = (renderNodesW l ctx "").map (buf ++ ·)
  | [], ctx, buf => by simp [renderNodesW]
  | c :: cs, ctx, buf => by
    cases hn : renderNodeW c ctx "" with
    | none =>
      have h' : ∀ b, renderNodeW c ctx b = none := fun b => by
        rw [renderNodeW_append c ctx b, hn]; rfl
      simp [renderNodesW, h']
    | some s =>
      have h' : ∀ b, renderNodeW c ctx b = some (b ++ s) := fun b => by
        rw [renderNodeW_append c ctx b, hn]; rfl
      simp only [renderNodesW, h']
      rw [renderNodesW_append cs ctx (buf ++ s), renderNodesW_append cs ctx ("" ++ s)]
      cases renderNodesW cs ctx "" <;> simp [String.append_assoc]

end

/-- The top-level child loop of `Root::render` only appends. -/
theorem renderChildrenW_append : ∀ (cs : List Node) (first : Bool) (ctx : RenderContext) (buf : String),
    renderChildrenW cs first ctx buf = (renderChildrenW cs first ctx "").map (buf ++ ·) := by
  intro cs
  induction cs with
  | nil => intro first ctx buf; simp [renderChildrenW]
  | cons c cs ih =>
    intro first ctx buf
    cases hn : renderNodeW c ctx "" with
    | none =>
      have h' : ∀ b, renderNodeW c ctx b = none := fun b => by
        rw [renderNodeW_append c ctx b, hn]; rfl
      simp [renderChildrenW, h']
    | some s =>
      have h' : ∀ b, renderNodeW c ctx b = some (b ++ s) := fun b => by
        rw [renderNodeW_append c ctx b, hn]; rfl
      simp only [renderChildrenW, h']
      have key : ∀ X Y : String, X = buf ++ Y →
          renderChildrenW cs false ctx X = (renderChildrenW cs false ctx Y).map (buf ++ ·) := by
        intro X Y hXY
        rw [hXY, ih false ctx (buf ++ Y), ih false ctx Y]
        cases renderChildrenW cs false ctx "" <;> simp [String.append_assoc]
      apply key
      cases first <;> simp [String.append_assoc]

/-- On a fresh writer, the child loop produces exactly the children block:
each child's bytes, preceded by a blank line except for a first child with
nothing emitted before it. -/
theorem renderChildrenW_eq_blockBytes : ∀ (cs : List Node) (first : Bool),
    renderChildrenW cs first ctx0 "" = childrenBlockBytes first cs := by
  intro cs
  induction cs with
  | nil => intro first; rfl
  | cons c cs ih =>
    intro first
    cases hn : renderNodeW c ctx0 "" with
    | none =>
      have h' : ∀ b, renderNodeW c ctx0 b = none := fun b => by
        rw [renderNodeW_append c ctx0 b, hn]; rfl
      simp [renderChildrenW, childrenBlockBytes, nodeBytes, h', hn]
    | some s =>
      have h' : ∀ b, renderNodeW c ctx0 b = some (b ++ s) := fun b => by
        rw [renderNodeW_append c ctx0 b, hn]; rfl
      simp only [renderChildrenW, childrenBlockBytes, nodeBytes, h', hn]
      have key : ∀ X : String,
          renderChildrenW cs false ctx0 X = (childrenBlockBytes false cs).map (X ++ ·) := by
        intro X
        rw [renderChildrenW_append cs false ctx0 X, ih false]
      rw [key]
      cases childrenBlockBytes false cs <;> cases first <;> simp [String.append_assoc]

/-- `Root::render` writes exactly `rootBytes`, appended to the writer's
prior contents: the comment first, the comment/import separator, then
the import lines, then the children block. -/
theorem renderRootW_eq_rootBytes (r : Root) (buf : String) :
    renderRootW r buf = (rootBytes r).map (buf ++ ·) := by
  obtain ⟨fc, us, cs⟩ := r
  have hus : ∀ b, renderUsingsW us ctx0 b = b ++ importsStr us := fun b => by
    rw [renderUsingsW_append us ctx0 b, renderUsingsW_eq_importsStr us]
  have hch : ∀ (first : Bool) (b : String),
      renderChildrenW cs first ctx0 b = (childrenBlockBytes first cs).map (b ++ ·) := by
    intro first b
    rw [renderChildrenW_append cs first ctx0 b, renderChildrenW_eq_blockBytes cs first]
  cases fc with
  | none =>
    simp only [renderRootW, rootBytes, commentStr, headerSepStr, rootFirstAfterHeader]
    rw [show ({ indent_level := 0 } : RenderContext) = ctx0 from rfl]
    simp only [Option.isNone_none, Option.isSome_none, Bool.true_and, Bool.false_and,
      Bool.not_true, Bool.false_and, if_neg, Bool.false_eq_true, ite_false]
    rw [hus buf, hch us.isEmpty (buf ++ importsStr us)]
    cases childrenBlockBytes us.isEmpty cs <;> simp [String.append_assoc]
  | some c =>
    have hbc : ∀ b, renderBlockCommentW c ctx0 b = b ++ renderBlockCommentW c ctx0 "" :=
      fun b => renderBlockCommentW_append c ctx0 b
    simp only [renderRootW, rootBytes, commentStr, headerSepStr, rootFirstAfterHeader]
    rw [show ({ indent_level := 0 } : RenderContext) = ctx0 from rfl]
    simp only [Option.isNone_some, Option.isSome_some, Bool.true_and, Bool.false_and,
      Bool.not_false, Bool.false_eq_true, ite_false]
    rw [hbc buf, hus _, hch false _]
    cases childrenBlockBytes false cs <;> cases hemp : us.isEmpty <;>
      simp [hemp, String.append_assoc]

/-- C7: rendering is deterministic and stateless — the bytes `Root::render`
writes are a function of the tree alone, appended to whatever the
fault-free writer already holds; in particular two renders of the same
tree into fresh writers produce byte-identical output, and no state is
retained across calls. -/
theorem C7_render_deterministic_and_stateless (r : Root) (buf : String) :
    renderRootW r buf = (renderRootW r "").map (buf ++ ·) := by
  rw [renderRootW_eq_rootBytes r buf, renderRootW_eq_rootBytes r ""]
  cases rootBytes r <;> simp

/-- C8: the layout of `Root::render` on a fresh writer: the optional block
comment comes first (`commentStr`), a blank line separates it from the
list of imports exactly when a comment was emitted and the import list
is non-empty (`headerSepStr`), each import occupies its own line in order
(`importsStr`), and in the children block a blank line precedes every
child except a first child with nothing emitted before it
(`childrenBlockBytes`). -/
theorem C8_root_render_layout (r : Root) :
    renderRootW r "" = rootBytes r := by
  rw [renderRootW_eq_rootBytes r ""]
  cases rootBytes r <;> simp

end Bindgen
